import Mathlib

set_option linter.unusedVariables false

/-!
Shallow embedding of `src/subsample.py`, an LJSpeech subsampling utility.

The program is a linear pipeline (lines 24–93 of `src/subsample.py`):
parse `metadata.csv` (`read_metadata`, lines 5–22), select `min(count, total)`
random indices with a seeded PRNG (lines 46–52), write the selected records
back out through `csv.writer` with `|` as delimiter (lines 59–63), and
hardlink-or-copy the corresponding wav files (lines 66–88).

Strings are modelled as `List Char`.  The filesystem and the outcome of the
`os.link` / `shutil.copy2` calls are modelled as oracle functions supplied in
an `Env`.  The process-global PRNG state is an explicit `RngState` argument
that `random.seed(seed)` overwrites.
-/

namespace Subsample

/-- A parsed metadata record, `(pid, text, norm)` at line 20 of
`src/subsample.py`: id, raw text and normalized text. -/
structure Record where
  pid : List Char
  text : List Char
  norm : List Char
deriving DecidableEq

/-- ASCII whitespace, modelling the characters removed by Python's
`str.strip()` (line 9 of `src/subsample.py`). -/
def isWS (c : Char) : Bool :=
  c = ' ' || c = '\t' || c = '\n' || c = '\r' || c = '\x0b' || c = '\x0c'

/-- Model of `line.strip()` (line 9): drop whitespace from both ends. -/
def stripChars (s : List Char) : List Char :=
  ((s.dropWhile isWS).reverse.dropWhile isWS).reverse

/-- Split a character list at its first `|`, returning the parts before and
after it, or `none` when there is no `|`.  Building block for Python's
`line.split("|", 2)` (line 13 of `src/subsample.py`). -/
def splitPipe : List Char → Option (List Char × List Char)
  | [] => none
  | c :: cs =>
    if c = '|' then some ([], cs)
    else
      match splitPipe cs with
      | none => none
      | some (a, b) => some (c :: a, b)

/-- Model of `line.split("|", 2)` on a nonempty line: split at the first two
`|` characters, leaving the remainder intact (line 13 of `src/subsample.py`).
The result has one, two or three parts. -/
def split2 (s : List Char) : List (List Char) :=
  match splitPipe s with
  | none => [s]
  | some (a, r) =>
    match splitPipe r with
    | none => [a, r]
    | some (b, c) => [a, b, c]

/-- The loop body of `read_metadata` (lines 8–21 of `src/subsample.py`) for a
single line: strip, skip blank lines, split at the first two `|`, default a
missing third field to the second, and discard lines with fewer than two
fields. -/
def parseLine (line : List Char) : Option Record :=
  let l := stripChars line
  if l.isEmpty then none
  else
    match split2 l with
    | [pid, text, norm] => some ⟨pid, text, norm⟩
    | [pid, text] => some ⟨pid, text, text⟩
    | _ => none

/-- Model of `read_metadata` (lines 5–22 of `src/subsample.py`), taking the
file's lines as input and returning the parsed records in file order. -/
def read_metadata (metaLines : List (List Char)) : List Record :=
  metaLines.filterMap parseLine

/-- The state of the process-global pseudo-random generator used by the
`random` module.  The concrete generator below is a linear congruential
stand-in for CPython's Mersenne Twister; every property proved about it
(determinism given the seed, value bounds) holds of the real generator as
well. -/
structure RngState where
  s : Nat
deriving DecidableEq

/-- Model of `random.seed(args.seed)` (line 49 of `src/subsample.py`): the
new global state is a function of the seed alone, independent of the prior
state. -/
def seedRng (seed : Nat) : RngState :=
  ⟨(seed + 1) * 2654435761 % 4294967296⟩

/-- Advance the generator one step, producing a raw value and the next
state. -/
def rngNext (g : RngState) : Nat × RngState :=
  let s' := (g.s * 1103515245 + 12345) % 2147483648
  (s', ⟨s'⟩)

/-- Draw a value below `bound` (for `bound > 0`) and advance the generator:
the `_randbelow` primitive that `random.sample` draws from. -/
def randbelow (g : RngState) (bound : Nat) : Nat × RngState :=
  let p := rngNext g
  (p.1 % bound, p.2)

/-- Model of `random.sample(pool, k)` for a list population (line 51 of
`src/subsample.py` uses `range(total)`): repeatedly draw a position into the
remaining pool and remove the chosen element, so the draws are without
replacement.  This is CPython's partial-shuffle selection in its contract —
`k` distinct elements of the pool, deterministic given the generator state —
though not call-for-call identical to the stdlib's pool/set variants. -/
def sample : RngState → Nat → List Nat → List Nat × RngState
  | g, 0, _ => ([], g)
  | g, k + 1, pool =>
    let jp := randbelow g pool.length
    let r := sample jp.2 k (pool.eraseIdx jp.1)
    (pool.getD jp.1 0 :: r.1, r.2)

/-- Lines 49–51 of `src/subsample.py`: seed the global generator, sample `k`
indices from `range(total)` and sort them ascending
(`sorted(random.sample(range(total), n))`). -/
def selectIndices (seed : Nat) (total : Nat) (k : Nat) : List Nat :=
  List.insertionSort (· ≤ ·) (sample (seedRng seed) k (List.range total)).1

/-- Line 52 of `src/subsample.py`: `selected = [rows[i] for i in indices]`.
Indexing is total here via `getD`; all indices produced by `selectIndices`
are in range. -/
def selectedRows (rows : List Record) (indices : List Nat) : List Record :=
  indices.map (fun i => rows.getD i ⟨[], [], []⟩)

/-- Whether `csv.writer` (QUOTE_MINIMAL, delimiter `|`, quotechar `"`) must
quote a field: it contains the delimiter, the quote character, or a line
terminator character. -/
def needsQuote (s : List Char) : Bool :=
  s.any (fun c => c = '|' || c = '"' || c = '\r' || c = '\n')

/-- Double every `"` inside a quoted csv field. -/
def escapeQuotes : List Char → List Char
  | [] => []
  | c :: cs => if c = '"' then '"' :: '"' :: escapeQuotes cs else c :: escapeQuotes cs

/-- Serialize one csv field under QUOTE_MINIMAL: quoted with inner quotes
doubled when it needs quoting, verbatim otherwise. -/
def csvField (s : List Char) : List Char :=
  if needsQuote s then '"' :: escapeQuotes s ++ ['"'] else s

/-- One `w.writerow([pid, text, norm])` call (line 63 of `src/subsample.py`)
with delimiter `|` and the csv module's default `\r\n` line terminator. -/
def writeRow (r : Record) : List Char :=
  csvField r.pid ++ '|' :: csvField r.text ++ '|' :: csvField r.norm ++ ['\r', '\n']

/-- The full content written to `dst/metadata.csv` (lines 59–63 of
`src/subsample.py`): one row per selected record, in order. -/
def writeMetadata (rs : List Record) : List Char :=
  (rs.map writeRow).flatten

/-- Split file content into lines at `'\n'`, the way reading the written
file back line-by-line would (any trailing `'\r'` is later removed by
`stripChars`). -/
def splitOnNl : List Char → List (List Char)
  | [] => [[]]
  | c :: cs =>
    if c = '\n' then [] :: splitOnNl cs
    else
      match splitOnNl cs with
      | [] => [[c]]
      | l :: ls => (c :: l) :: ls

/-- The kind of one transfer attempt: `os.link` (line 80) or `shutil.copy2`
(lines 78 and 84 of `src/subsample.py`). -/
inductive AttemptKind where
  | link
  | copy
deriving DecidableEq

/-- One transfer attempt made by the materializer loop: its kind, the record
id it was for, and whether it succeeded. -/
structure Attempt where
  kind : AttemptKind
  pid : List Char
  ok : Bool
deriving DecidableEq

/-- What happened to one selected record in the materializer loop
(lines 66–88 of `src/subsample.py`). -/
inductive Outcome where
  | warnMissing
  | skippedExisting
  | linked
  | copied
  | errorFailed
deriving DecidableEq

/-- One iteration of the wav loop (lines 67–87 of `src/subsample.py`): warn
when the source wav is missing, skip when the destination already exists
(pre-existing `dst0` or created earlier in this run), otherwise transfer —
copy directly under `--copy`, else hardlink with a single copy fallback.
Returns the updated list of files created by this run, the outcome, and the
transfer attempts made. -/
def materializeOne (copyFlag : Bool) (srcOk linkOk copyOk dst0 : List Char → Bool)
    (created : List (List Char)) (pid : List Char) :
    List (List Char) × Outcome × List Attempt :=
  if srcOk pid = false then (created, Outcome.warnMissing, [])
  else if dst0 pid || created.contains pid then (created, Outcome.skippedExisting, [])
  else if copyFlag then
    if copyOk pid then (pid :: created, Outcome.copied, [⟨AttemptKind.copy, pid, true⟩])
    else
      (created, Outcome.errorFailed,
        [⟨AttemptKind.copy, pid, false⟩, ⟨AttemptKind.copy, pid, false⟩])
  else
    if linkOk pid then (pid :: created, Outcome.linked, [⟨AttemptKind.link, pid, true⟩])
    else if copyOk pid then
      (pid :: created, Outcome.copied,
        [⟨AttemptKind.link, pid, false⟩, ⟨AttemptKind.copy, pid, true⟩])
    else
      (created, Outcome.errorFailed,
        [⟨AttemptKind.link, pid, false⟩, ⟨AttemptKind.copy, pid, false⟩])

/-- The contribution of one outcome to the `errors` counter: both the
missing-wav warning (line 72) and the unrecoverable transfer failure
(line 87 of `src/subsample.py`) increment it. -/
def errInc (o : Outcome) : Nat :=
  if o = Outcome.warnMissing ∨ o = Outcome.errorFailed then 1 else 0

/-- The whole wav loop (lines 66–88 of `src/subsample.py`) over the selected
ids: returns the files created by the run, the per-record
`(pid, outcome, attempts)` results in order, and the final `errors`
counter. -/
def materializeAll (copyFlag : Bool) (srcOk linkOk copyOk dst0 : List Char → Bool) :
    List (List Char) → List (List Char) →
    List (List Char) × List (List Char × Outcome × List Attempt) × Nat
  | created, [] => (created, [], 0)
  | created, pid :: rest =>
    let step := materializeOne copyFlag srcOk linkOk copyOk dst0 created pid
    let r := materializeAll copyFlag srcOk linkOk copyOk dst0 step.1 rest
    (r.1, (pid, step.2.1, step.2.2) :: r.2.1, errInc step.2.1 + r.2.2)

/-- The world `main` runs against: whether `src/metadata.csv` is a file and
`src/wavs` a directory (lines 38–39), the lines of the metadata file, and
oracles for the wav filesystem — whether each source wav exists (line 70),
whether the destination wav pre-exists (line 74), and whether `os.link` /
`shutil.copy2` succeed for a given id. -/
structure Env where
  srcMetaExists : Bool
  srcWavsExists : Bool
  metaLines : List (List Char)
  srcWavExists : List Char → Bool
  dstWavExists0 : List Char → Bool
  linkOk : List Char → Bool
  copyOk : List Char → Bool

/-- The ways a run of `main` dies before completing: the two `assert`s at
lines 38–39, the `SystemExit` at line 44, and the `ValueError` that
`random.sample` raises at line 51 when the effective count is negative. -/
inductive FatalErr where
  | metaMissing
  | wavsMissing
  | emptyMeta
  | sampleValueError
deriving DecidableEq

/-- Filesystem output effects of a run, in order: the `mkdir` of
`dst/wavs` (line 56), the write of `dst/metadata.csv` (lines 60–63), and one
file creation per materialized wav. -/
inductive Eff where
  | mkdirWavs
  | writeMeta (content : List Char)
  | createFile (pid : List Char)
deriving DecidableEq

/-- Everything a completed (non-fatal) run computed and reported: the totals
printed at line 47, the sorted selected indices and records, the metadata
content written, the files created, the per-record materializer results and
the error tally. -/
structure RunResult where
  total : Nat
  effCount : Nat
  reportedTotal : Nat
  reportedSelecting : Nat
  reportedSeed : Nat
  indices : List Nat
  selected : List Record
  metaOut : List Char
  created : List (List Char)
  results : List (List Char × Outcome × List Attempt)
  errors : Nat
deriving DecidableEq

/-- The non-fatal branch of `main` (lines 46–90 of `src/subsample.py`):
`n = min(count, total)`, select and sort indices, take the rows, serialize
them, and run the wav loop. -/
def runOk (env : Env) (count : Int) (seed : Nat) (copyFlag : Bool) : RunResult :=
  let rows := read_metadata env.metaLines
  let total := rows.length
  let k := (min count (total : Int)).toNat
  let indices := selectIndices seed total k
  let selected := selectedRows rows indices
  let m := materializeAll copyFlag env.srcWavExists env.linkOk env.copyOk env.dstWavExists0 []
    (selected.map Record.pid)
  { total := total, effCount := k, reportedTotal := total, reportedSelecting := k,
    reportedSeed := seed, indices := indices, selected := selected,
    metaOut := writeMetadata selected, created := m.1, results := m.2.1, errors := m.2.2 }

/-- The filesystem effects of a completed run, in program order. -/
def runEffs (r : RunResult) : List Eff :=
  Eff.mkdirWavs :: Eff.writeMeta r.metaOut :: r.created.reverse.map Eff.createFile

/-- The fatal conditions of a run, checked in the order the program hits
them: the `assert` on `metadata.csv` (line 38), the `assert` on `wavs/`
(line 39), the empty-dataset `SystemExit` (lines 43–44), and the
`ValueError` that `random.sample` raises at line 51 when the effective
count `min(count, total)` is negative. -/
def fatalCheck (env : Env) (count : Int) : Option FatalErr :=
  if env.srcMetaExists then
    if env.srcWavsExists then
      if (read_metadata env.metaLines).length = 0 then some FatalErr.emptyMeta
      else if min count (((read_metadata env.metaLines).length : Int)) < 0 then
        some FatalErr.sampleValueError
      else none
    else some FatalErr.wavsMissing
  else some FatalErr.metaMissing

/-- Model of `main` (lines 24–93 of `src/subsample.py`).  `g0` is the
process-global PRNG state at entry; `random.seed(seed)` at line 49 replaces
it, so it is dead.  All fatal conditions (including the `random.sample`
`ValueError`) arise before the `mkdir` at line 56, so a fatal run produces
no output effects. -/
def main (g0 : RngState) (env : Env) (count : Int) (seed : Nat) (copyFlag : Bool) :
    List Eff × Except FatalErr RunResult :=
  match fatalCheck env count with
  | some e => ([], Except.error e)
  | none =>
    (runEffs (runOk env count seed copyFlag), Except.ok (runOk env count seed copyFlag))

/-- Abbreviation used by concrete test environments below. -/
def strL (s : String) : List Char :=
  s.data

/-- A record is delimiter-safe when none of its fields forces csv quoting
(no `|`, `"`, CR or LF), its id has no leading whitespace and its
normalized text has no trailing whitespace, so that serializing and
re-parsing it transforms nothing. -/
def safeRecord (r : Record) : Bool :=
  !needsQuote r.pid && !needsQuote r.text && !needsQuote r.norm &&
    (r.pid.takeWhile isWS).isEmpty && (r.norm.reverse.takeWhile isWS).isEmpty

/-- A well-formed three-record source environment with fully working
filesystem oracles. -/
def envW : Env :=
  { srcMetaExists := true, srcWavsExists := true,
    metaLines := [strL "a|t|n", strL "b|u|m", strL "c|v|w"],
    srcWavExists := fun _ => true, dstWavExists0 := fun _ => false,
    linkOk := fun _ => true, copyOk := fun _ => true }

/-- Like `envW` but with a dead hardlink oracle and a pre-populated
destination reported differently, sharing the same metadata lines. -/
def envW2 : Env :=
  { srcMetaExists := true, srcWavsExists := true,
    metaLines := [strL "a|t|n", strL "b|u|m", strL "c|v|w"],
    srcWavExists := fun _ => true, dstWavExists0 := fun _ => false,
    linkOk := fun _ => false, copyOk := fun _ => true }

/-- A source whose two records share the id `a`. -/
def envDup : Env :=
  { srcMetaExists := true, srcWavsExists := true,
    metaLines := [strL "a|t|n", strL "a|u|m"],
    srcWavExists := fun _ => true, dstWavExists0 := fun _ => false,
    linkOk := fun _ => true, copyOk := fun _ => true }

/-- A destination already holding every asset while the source wav is gone. -/
def envC8 : Env :=
  { srcMetaExists := true, srcWavsExists := true,
    metaLines := [strL "a|t|n"],
    srcWavExists := fun _ => false, dstWavExists0 := fun _ => true,
    linkOk := fun _ => true, copyOk := fun _ => true }

/-- A destination already holding every asset with the sources present. -/
def envPre : Env :=
  { srcMetaExists := true, srcWavsExists := true,
    metaLines := [strL "a|t|n", strL "b|u|m", strL "c|v|w"],
    srcWavExists := fun _ => true, dstWavExists0 := fun _ => true,
    linkOk := fun _ => true, copyOk := fun _ => true }

/-- A drawn position is always within the pool when the pool is nonempty. -/
theorem randbelow_lt (g : RngState) {b : Nat} (hb : 0 < b) : (randbelow g b).1 < b := by
  have h := Nat.mod_lt (rngNext g).1 hb
  simpa [randbelow] using h

/-- `sample` always returns exactly `k` draws. -/
theorem sample_length (g : RngState) (k : Nat) (pool : List Nat) :
    ((sample g k pool).1).length = k := by
  induction k generalizing g pool with
  | zero => rfl
  | succ k ih => simp [sample, ih]

/-- An element fetched by index and then erased at that index is gone from a
duplicate-free list. -/
theorem getD_not_mem_eraseIdx {α : Type} (l : List α) (i : Nat) (d : α)
    (hl : l.Nodup) (hi : i < l.length) : l.getD i d ∉ l.eraseIdx i := by
  induction l generalizing i with
  | nil => simp at hi
  | cons a t ih =>
    have hnd := List.nodup_cons.1 hl
    cases i with
    | zero =>
      simpa using hnd.1
    | succ i =>
      have hi' : i < t.length := by simpa using hi
      simp only [List.eraseIdx_cons_succ, List.getD_cons_succ]
      intro hmem
      rcases List.mem_cons.1 hmem with h | h
      · have hin : t.getD i d ∈ t := by
          rw [List.getD_eq_getElem t d hi']
          exact List.getElem_mem hi'
        rw [h] at hin
        exact hnd.1 hin
      · exact ih i hnd.2 hi' h

/-- When at most the pool size is requested, every draw comes from the pool. -/
theorem sample_mem (g : RngState) (k : Nat) (pool : List Nat) (hk : k ≤ pool.length) :
    ∀ x ∈ (sample g k pool).1, x ∈ pool := by
  induction k generalizing g pool with
  | zero => intro x hx; simp [sample] at hx
  | succ k ih =>
    intro x hx
    have hpos : 0 < pool.length := lt_of_lt_of_le (Nat.succ_pos k) hk
    have hjlt : (randbelow g pool.length).1 < pool.length := randbelow_lt g hpos
    have hlen : (pool.eraseIdx (randbelow g pool.length).1).length = pool.length - 1 := by
      rw [List.length_eraseIdx]
      simp [hjlt]
    simp only [sample] at hx
    rcases List.mem_cons.1 hx with h | h
    · rw [h, List.getD_eq_getElem pool 0 hjlt]
      exact List.getElem_mem hjlt
    · have hk' : k ≤ (pool.eraseIdx (randbelow g pool.length).1).length := by omega
      have := ih _ _ hk' x h
      exact (List.eraseIdx_sublist pool (randbelow g pool.length).1).mem this

/-- Sampling without replacement: when at most the pool size is requested
from a duplicate-free pool, the draws are pairwise distinct. -/
theorem sample_nodup (g : RngState) (k : Nat) (pool : List Nat) (hk : k ≤ pool.length)
    (hnd : pool.Nodup) : ((sample g k pool).1).Nodup := by
  induction k generalizing g pool with
  | zero => simp [sample]
  | succ k ih =>
    have hpos : 0 < pool.length := lt_of_lt_of_le (Nat.succ_pos k) hk
    have hjlt : (randbelow g pool.length).1 < pool.length := randbelow_lt g hpos
    have hlen : (pool.eraseIdx (randbelow g pool.length).1).length = pool.length - 1 := by
      rw [List.length_eraseIdx]
      simp [hjlt]
    have hk' : k ≤ (pool.eraseIdx (randbelow g pool.length).1).length := by omega
    have hnd' : (pool.eraseIdx (randbelow g pool.length).1).Nodup :=
      (List.eraseIdx_sublist pool (randbelow g pool.length).1).nodup hnd
    simp only [sample]
    refine List.nodup_cons.2 ⟨?_, ih _ _ hk' hnd'⟩
    intro hmem
    exact getD_not_mem_eraseIdx pool (randbelow g pool.length).1 0 hnd hjlt
      (sample_mem _ _ _ hk' _ hmem)

/-- The sorted index selection has exactly the requested (effective) size. -/
theorem selectIndices_length (seed total k : Nat) : (selectIndices seed total k).length = k := by
  have hp := List.perm_insertionSort (· ≤ ·) (sample (seedRng seed) k (List.range total)).1
  rw [selectIndices, hp.length_eq, sample_length]

/-- Every selected index is a valid position in the dataset. -/
theorem selectIndices_mem (seed total k : Nat) (hk : k ≤ total) :
    ∀ i ∈ selectIndices seed total k, i < total := by
  intro i hi
  have hp := List.perm_insertionSort (· ≤ ·) (sample (seedRng seed) k (List.range total)).1
  have : i ∈ (sample (seedRng seed) k (List.range total)).1 := hp.mem_iff.1 hi
  have := sample_mem _ _ _ (by simpa using hk) i this
  simpa using this

/-- The selected indices are pairwise distinct. -/
theorem selectIndices_nodup (seed total k : Nat) (hk : k ≤ total) :
    (selectIndices seed total k).Nodup := by
  have hp := List.perm_insertionSort (· ≤ ·) (sample (seedRng seed) k (List.range total)).1
  exact hp.nodup_iff.2 (sample_nodup _ _ _ (by simpa using hk) (List.nodup_range total))

/-- The selected indices are sorted ascending. -/
theorem selectIndices_sorted (seed total k : Nat) :
    List.Sorted (· ≤ ·) (selectIndices seed total k) :=
  List.sorted_insertionSort (· ≤ ·) _

/-- The selected indices are strictly increasing. -/
theorem selectIndices_sorted_lt (seed total k : Nat) (hk : k ≤ total) :
    List.Sorted (· < ·) (selectIndices seed total k) :=
  (selectIndices_sorted seed total k).lt_of_le (selectIndices_nodup seed total k hk)

/-- The fatal check passes exactly when both source checks pass, parsing
yields at least one record, and the effective count is nonnegative. -/
theorem fatalCheck_eq_none (env : Env) (count : Int) :
    fatalCheck env count = none ↔
      env.srcMetaExists = true ∧ env.srcWavsExists = true ∧
        read_metadata env.metaLines ≠ [] ∧
        0 ≤ min count (((read_metadata env.metaLines).length : Int)) := by
  unfold fatalCheck
  cases hm : env.srcMetaExists with
  | false => simp
  | true =>
    cases hw : env.srcWavsExists with
    | false => simp
    | true =>
      by_cases h0 : (read_metadata env.metaLines).length = 0
      · simp [h0, List.length_eq_zero.1 h0]
      · by_cases hneg : min count (((read_metadata env.metaLines).length : Int)) < 0
        · simp [h0, hneg, not_le.2 hneg]
        · simp [h0, hneg, ← List.length_eq_zero, not_lt.1 hneg]

/-- Inversion for completed runs: `main` returns `ok r` exactly when the
fatal check passes and `r` is the result of the non-fatal branch. -/
theorem main_ok_iff (g0 : RngState) (env : Env) (count : Int) (seed : Nat) (f : Bool)
    (r : RunResult) :
    (main g0 env count seed f).2 = Except.ok r ↔
      env.srcMetaExists = true ∧ env.srcWavsExists = true ∧
        read_metadata env.metaLines ≠ [] ∧
        0 ≤ min count (((read_metadata env.metaLines).length : Int)) ∧
        r = runOk env count seed f := by
  cases hfc : fatalCheck env count with
  | some e =>
    simp only [main, hfc]
    constructor
    · intro h
      exact absurd h (by simp)
    · rintro ⟨h1, h2, h3, h4, -⟩
      have hn : fatalCheck env count = none := (fatalCheck_eq_none env count).2 ⟨h1, h2, h3, h4⟩
      rw [hfc] at hn
      cases hn
  | none =>
    have hc := (fatalCheck_eq_none env count).1 hfc
    simp only [main, hfc]
    constructor
    · intro h
      exact ⟨hc.1, hc.2.1, hc.2.2.1, hc.2.2.2, (Except.ok.inj h).symm⟩
    · rintro ⟨-, -, -, -, rfl⟩
      rfl

/-- A fatal abort produces no filesystem output effects: all fatal checks
(and the `random.sample` call) precede the `mkdir` at line 56. -/
theorem main_error_effs (g0 : RngState) (env : Env) (count : Int) (seed : Nat) (f : Bool)
    (e : FatalErr) (h : (main g0 env count seed f).2 = Except.error e) :
    (main g0 env count seed f).1 = [] := by
  cases hfc : fatalCheck env count with
  | some e' => simp [main, hfc]
  | none =>
    rw [main] at h
    rw [hfc] at h
    cases h

/-- For a nonnegative requested count, `main` aborts exactly when a
dataset-level precondition fails. -/
theorem main_error_iff (g0 : RngState) (env : Env) (count : Int) (seed : Nat) (f : Bool)
    (hc : 0 ≤ count) :
    (∃ e, (main g0 env count seed f).2 = Except.error e) ↔
      env.srcMetaExists = false ∨ env.srcWavsExists = false ∨
        read_metadata env.metaLines = [] := by
  cases hfc : fatalCheck env count with
  | some e =>
    have hn : fatalCheck env count ≠ none := by rw [hfc]; exact Option.some_ne_none e
    have hnc := (not_iff_not.2 (fatalCheck_eq_none env count)).1 hn
    simp only [main, hfc]
    constructor
    · intro _
      cases hm : env.srcMetaExists with
      | false => exact Or.inl rfl
      | true =>
        cases hw : env.srcWavsExists with
        | false => exact Or.inr (Or.inl rfl)
        | true =>
          by_cases hr : read_metadata env.metaLines = []
          · exact Or.inr (Or.inr hr)
          · exact absurd ⟨hm, hw, hr, le_min hc (by exact_mod_cast Nat.zero_le _)⟩ hnc
    · intro _
      exact ⟨e, rfl⟩
  | none =>
    have hco := (fatalCheck_eq_none env count).1 hfc
    simp only [main, hfc]
    constructor
    · rintro ⟨e, he⟩
      cases he
    · rintro (h | h | h)
      · rw [hco.1] at h
        cases h
      · rw [hco.2.1] at h
        cases h
      · exact absurd h hco.2.2.1

/-- Unfolding lemma: the dataset size reported by a completed run. -/
theorem runOk_total (env : Env) (count : Int) (seed : Nat) (f : Bool) :
    (runOk env count seed f).total = (read_metadata env.metaLines).length := rfl

/-- Unfolding lemma: the effective count of a completed run. -/
theorem runOk_effCount (env : Env) (count : Int) (seed : Nat) (f : Bool) :
    (runOk env count seed f).effCount =
      (min count (((read_metadata env.metaLines).length : Int))).toNat := rfl

/-- Unfolding lemma: the sorted selected indices of a completed run. -/
theorem runOk_indices (env : Env) (count : Int) (seed : Nat) (f : Bool) :
    (runOk env count seed f).indices =
      selectIndices seed (read_metadata env.metaLines).length
        (min count (((read_metadata env.metaLines).length : Int))).toNat := rfl

/-- Unfolding lemma: the selected records of a completed run. -/
theorem runOk_selected (env : Env) (count : Int) (seed : Nat) (f : Bool) :
    (runOk env count seed f).selected =
      selectedRows (read_metadata env.metaLines) (runOk env count seed f).indices := rfl

/-- Unfolding lemma: the metadata content written by a completed run. -/
theorem runOk_metaOut (env : Env) (count : Int) (seed : Nat) (f : Bool) :
    (runOk env count seed f).metaOut = writeMetadata (runOk env count seed f).selected := rfl

/-- Unfolding lemma: the materializer outputs of a completed run. -/
theorem runOk_mat (env : Env) (count : Int) (seed : Nat) (f : Bool) :
    ((runOk env count seed f).created, (runOk env count seed f).results,
        (runOk env count seed f).errors) =
      materializeAll f env.srcWavExists env.linkOk env.copyOk env.dstWavExists0 []
        (((runOk env count seed f).selected).map Record.pid) := rfl

/-- C1: for every parsed dataset and nonnegative requested count, the run
completes, the effective selected count equals `min(C, N)` — in particular
`C > N` does not error but selects all `N` records — and the effective
count is what the program reports to the operator. -/
theorem effective_count_is_min (g0 : RngState) (env : Env) (count : Int) (seed : Nat)
    (f : Bool)
    (hm : env.srcMetaExists = true) (hw : env.srcWavsExists = true)
    (hne : read_metadata env.metaLines ≠ []) (hc : 0 ≤ count) :
    ∃ r, (main g0 env count seed f).2 = Except.ok r ∧
      (r.effCount : Int) = min count (r.total : Int) ∧
      r.indices.length = r.effCount ∧
      r.selected.length = r.effCount ∧
      r.reportedSelecting = r.effCount ∧
      r.reportedTotal = r.total ∧
      ((r.total : Int) ≤ count → r.effCount = r.total) := by
  have hmin : 0 ≤ min count (((read_metadata env.metaLines).length : Int)) :=
    le_min hc (by exact_mod_cast Nat.zero_le _)
  refine ⟨runOk env count seed f,
    (main_ok_iff g0 env count seed f _).2 ⟨hm, hw, hne, hmin, rfl⟩, ?_, ?_, ?_, rfl, rfl, ?_⟩
  · rw [runOk_effCount, runOk_total, Int.toNat_of_nonneg hmin]
  · rw [runOk_indices, runOk_effCount, selectIndices_length]
  · rw [runOk_selected, selectedRows, List.length_map, runOk_indices, runOk_effCount,
      selectIndices_length]
  · intro hle
    rw [runOk_total] at hle
    rw [runOk_effCount, runOk_total, min_eq_right hle, Int.toNat_natCast]

/-- C2: the selection stage is a deterministic function of the dataset, the
requested count and the seed: any two completed runs over the same metadata
lines — regardless of the ambient PRNG state, the asset-filesystem oracles
or the copy flag — produce the same sorted index list and hence the same
ordered records and ids; and the index list is sorted ascending. -/
theorem selection_reproducible (g0 g0' : RngState) (env env' : Env) (count : Int)
    (seed : Nat) (f f' : Bool) (r r' : RunResult)
    (hml : env.metaLines = env'.metaLines)
    (h : (main g0 env count seed f).2 = Except.ok r)
    (h' : (main g0' env' count seed f').2 = Except.ok r') :
    r.indices = r'.indices ∧ r.selected = r'.selected ∧
      r.selected.map Record.pid = r'.selected.map Record.pid ∧
      List.Sorted (· ≤ ·) r.indices := by
  have h1 := ((main_ok_iff g0 env count seed f r).1 h).2.2.2.2
  have h2 := ((main_ok_iff g0' env' count seed f' r').1 h').2.2.2.2
  subst h1
  subst h2
  have hi : (runOk env count seed f).indices = (runOk env' count seed f').indices := by
    rw [runOk_indices, runOk_indices, hml]
  have hs : (runOk env count seed f).selected = (runOk env' count seed f').selected := by
    rw [runOk_selected, runOk_selected, hml, hi]
  refine ⟨hi, hs, by rw [hs], ?_⟩
  rw [runOk_indices]
  exact selectIndices_sorted _ _ _

/-- C5: for counts within the spec's precondition, the run aborts fatally
exactly when the source metadata file is missing, the source wavs directory
is missing, or parsing yields zero usable records; every fatal abort
happens before any output file or directory is created; and per-record
conditions (arbitrary missing-wav / failed-link / failed-copy oracles)
never prevent the run from completing. -/
theorem fatal_taxonomy (g0 : RngState) (env : Env) (count : Int) (seed : Nat) (f : Bool) :
    (0 ≤ count →
      ((∃ e, (main g0 env count seed f).2 = Except.error e) ↔
        env.srcMetaExists = false ∨ env.srcWavsExists = false ∨
          read_metadata env.metaLines = [])) ∧
    (∀ e, (main g0 env count seed f).2 = Except.error e →
      (main g0 env count seed f).1 = []) ∧
    (env.srcMetaExists = true → env.srcWavsExists = true →
      read_metadata env.metaLines ≠ [] → 0 ≤ count →
      ∃ r, (main g0 env count seed f).2 = Except.ok r) := by
  refine ⟨fun hc => main_error_iff g0 env count seed f hc,
    fun e he => main_error_effs g0 env count seed f e he,
    fun hm hw hne hc => ?_⟩
  exact ⟨runOk env count seed f,
    (main_ok_iff g0 env count seed f _).2
      ⟨hm, hw, hne, le_min hc (by exact_mod_cast Nat.zero_le _), rfl⟩⟩

/-- C10: outside the spec's precondition of a positive count — with a valid
source layout and a nonempty dataset — requesting count `0` completes the
run with an empty selection, an empty output metadata file and no asset
materialization, while a negative count makes the selection step die with
the `random.sample` `ValueError` rather than one of the program's
descriptive fatal errors. -/
theorem out_of_precondition_counts (g0 : RngState) (env : Env) (seed : Nat) (f : Bool)
    (hm : env.srcMetaExists = true) (hw : env.srcWavsExists = true)
    (hne : read_metadata env.metaLines ≠ []) :
    (∃ r, (main g0 env 0 seed f).2 = Except.ok r ∧ r.effCount = 0 ∧ r.indices = [] ∧
      r.selected = [] ∧ r.metaOut = [] ∧ r.created = [] ∧ r.results = [] ∧ r.errors = 0 ∧
      (main g0 env 0 seed f).1 = [Eff.mkdirWavs, Eff.writeMeta []]) ∧
    (∀ count : Int, count < 0 →
      main g0 env count seed f = ([], Except.error FatalErr.sampleValueError)) := by
  have hmin : min (0 : Int) (((read_metadata env.metaLines).length : Int)) = 0 :=
    min_eq_left (by exact_mod_cast Nat.zero_le _)
  constructor
  · have hok : (main g0 env 0 seed f).2 = Except.ok (runOk env 0 seed f) :=
      (main_ok_iff g0 env 0 seed f _).2 ⟨hm, hw, hne, by rw [hmin], rfl⟩
    have hk : (min (0 : Int) (((read_metadata env.metaLines).length : Int))).toNat = 0 := by
      rw [hmin]
      rfl
    have hidx : (runOk env 0 seed f).indices = [] := by
      rw [runOk_indices, hk]
      rfl
    have hsel : (runOk env 0 seed f).selected = [] := by
      rw [runOk_selected, hidx]
      rfl
    have hmeta : (runOk env 0 seed f).metaOut = [] := by
      rw [runOk_metaOut, hsel]
      rfl
    have hmat := runOk_mat env 0 seed f
    rw [hsel] at hmat
    have hcreated : (runOk env 0 seed f).created = [] := congrArg Prod.fst hmat
    have hres : (runOk env 0 seed f).results = [] :=
      congrArg (fun p => p.2.1) hmat
    have herr : (runOk env 0 seed f).errors = 0 :=
      congrArg (fun p => p.2.2) hmat
    refine ⟨runOk env 0 seed f, hok, ?_, hidx, hsel, hmeta, hcreated, hres, herr, ?_⟩
    · rw [runOk_effCount, hk]
    · have hfc : fatalCheck env 0 = none :=
        (fatalCheck_eq_none env 0).2 ⟨hm, hw, hne, by rw [hmin]⟩
      show (main g0 env 0 seed f).1 = _
      rw [main, hfc]
      show runEffs (runOk env 0 seed f) = _
      rw [runEffs, hmeta, hcreated]
      rfl
  · intro count hcount
    have hfc : fatalCheck env count = some FatalErr.sampleValueError := by
      rw [fatalCheck, hm, hw]
      have h0 : ¬ (read_metadata env.metaLines).length = 0 := by
        intro h
        exact hne (List.length_eq_zero.1 h)
      have hneg : min count (((read_metadata env.metaLines).length : Int)) < 0 :=
        lt_of_le_of_lt (min_le_left _ _) hcount
      simp [h0, hneg]
    rw [main, hfc]

/-- A list with no leading whitespace is unchanged by `dropWhile isWS`. -/
theorem dropWhile_ws_eq_self (l : List Char) (h : l.takeWhile isWS = []) :
    l.dropWhile isWS = l := by
  cases l with
  | nil => rfl
  | cons c cs =>
    by_cases hc : isWS c
    · rw [List.takeWhile_cons, if_pos hc] at h
      cases h
    · simp [List.dropWhile_cons, hc]

/-- Prepending a pipe-led tail preserves the absence of leading whitespace. -/
theorem takeWhile_ws_append (a rest : List Char) (h : a.takeWhile isWS = []) :
    ((a ++ '|' :: rest).takeWhile isWS) = [] := by
  cases a with
  | nil => simp [List.takeWhile_cons, (by decide : isWS '|' = false)]
  | cons c cs =>
    by_cases hc : isWS c
    · rw [List.takeWhile_cons, if_pos hc] at h
      cases h
    · simp [List.takeWhile_cons, hc]

/-- Appending to a nonempty list with no leading whitespace preserves the
absence of leading whitespace. -/
theorem takeWhile_ws_append_ne (a b : List Char) (h : a.takeWhile isWS = [])
    (hne : a ≠ []) : ((a ++ b).takeWhile isWS) = [] := by
  cases a with
  | nil => exact absurd rfl hne
  | cons c cs =>
    by_cases hc : isWS c
    · rw [List.takeWhile_cons, if_pos hc] at h
      cases h
    · simp [List.takeWhile_cons, hc]

/-- A pipe-free list has no split point. -/
theorem splitPipe_not_mem (a : List Char) (h : '|' ∉ a) : splitPipe a = none := by
  induction a with
  | nil => rfl
  | cons c cs ih =>
    have hc : c ≠ '|' := fun hcc => h (hcc ▸ List.mem_cons_self c cs)
    have hcs : '|' ∉ cs := fun hm => h (List.mem_cons_of_mem c hm)
    simp [splitPipe, hc, ih hcs]

/-- `splitPipe` splits exactly at the first pipe. -/
theorem splitPipe_append (a b : List Char) (h : '|' ∉ a) :
    splitPipe (a ++ '|' :: b) = some (a, b) := by
  induction a with
  | nil => simp [splitPipe]
  | cons c cs ih =>
    have hc : c ≠ '|' := fun hcc => h (hcc ▸ List.mem_cons_self c cs)
    have hcs : '|' ∉ cs := fun hm => h (List.mem_cons_of_mem c hm)
    simp [splitPipe, hc, ih hcs]

/-- `split2` on a line with no pipe: a single field. -/
theorem split2_one (a : List Char) (h : '|' ∉ a) : split2 a = [a] := by
  rw [split2, splitPipe_not_mem a h]

/-- `split2` on a line with exactly one pipe: two fields. -/
theorem split2_two (a b : List Char) (ha : '|' ∉ a) (hb : '|' ∉ b) :
    split2 (a ++ '|' :: b) = [a, b] := by
  rw [split2, splitPipe_append a b ha]
  simp [splitPipe_not_mem b hb]

/-- `split2` on a line with at least two pipes: the first two pipes split it
into three fields, the third keeping any further pipes. -/
theorem split2_three (a b c : List Char) (ha : '|' ∉ a) (hb : '|' ∉ b) :
    split2 (a ++ '|' :: (b ++ '|' :: c)) = [a, b, c] := by
  rw [split2, splitPipe_append a _ ha]
  simp [splitPipe_append b c hb]

/-- C9: the line policy of `read_metadata`: a line that strips to nothing is
skipped; a stripped line with exactly one pipe yields a record whose
normalized text defaults to its text; a stripped nonempty line with no pipe
yields no record; and any other stripped line is split at its first two
pipes into id, text and normalized text (the third field keeping any
further pipes). -/
theorem reader_line_policy :
    (∀ line, stripChars line = [] → parseLine line = none) ∧
    (∀ a b, stripChars (a ++ '|' :: b) = a ++ '|' :: b → '|' ∉ a → '|' ∉ b →
      parseLine (a ++ '|' :: b) = some ⟨a, b, b⟩) ∧
    (∀ a, stripChars a = a → a ≠ [] → '|' ∉ a → parseLine a = none) ∧
    (∀ a b c, stripChars (a ++ '|' :: (b ++ '|' :: c)) = a ++ '|' :: (b ++ '|' :: c) →
      '|' ∉ a → '|' ∉ b → parseLine (a ++ '|' :: (b ++ '|' :: c)) = some ⟨a, b, c⟩) := by
  refine ⟨fun line h => ?_, fun a b hs ha hb => ?_, fun a hs hne ha => ?_,
    fun a b c hs ha hb => ?_⟩
  · simp [parseLine, h]
  · rw [parseLine]
    simp only [hs]
    rw [split2_two a b ha hb]
    simp
  · rw [parseLine]
    simp only [hs]
    rw [split2_one a ha]
    simp [hne]
  · rw [parseLine]
    simp only [hs]
    rw [split2_three a b c ha hb]
    simp

/-- A field that needs no quoting contains none of the special csv
characters. -/
theorem not_mem_of_needsQuote_false (s : List Char) (h : needsQuote s = false) :
    '|' ∉ s ∧ '"' ∉ s ∧ '\r' ∉ s ∧ '\n' ∉ s := by
  rw [needsQuote, List.any_eq_false] at h
  exact ⟨fun hm => h _ hm (by decide), fun hm => h _ hm (by decide),
    fun hm => h _ hm (by decide), fun hm => h _ hm (by decide)⟩

/-- Safe fields serialize verbatim under QUOTE_MINIMAL. -/
theorem csvField_safe (s : List Char) (h : needsQuote s = false) : csvField s = s := by
  rw [csvField]
  simp [h]

/-- Unpacked form of `safeRecord`. -/
theorem safeRecord_iff (r : Record) :
    safeRecord r = true ↔
      needsQuote r.pid = false ∧ needsQuote r.text = false ∧ needsQuote r.norm = false ∧
        r.pid.takeWhile isWS = [] ∧ r.norm.reverse.takeWhile isWS = [] := by
  simp only [safeRecord, Bool.and_eq_true, Bool.not_eq_true', List.isEmpty_iff]
  tauto

/-- Stripping a serialized safe row removes exactly the trailing carriage
return. -/
theorem strip_core_cr (pid text norm : List Char)
    (hpid : pid.takeWhile isWS = []) (hnorm : norm.reverse.takeWhile isWS = []) :
    stripChars ((pid ++ '|' :: (text ++ '|' :: norm)) ++ ['\x0d']) =
      pid ++ '|' :: (text ++ '|' :: norm) := by
  have hu : (pid ++ '|' :: (text ++ '|' :: norm)).takeWhile isWS = [] :=
    takeWhile_ws_append _ _ hpid
  have hune : pid ++ '|' :: (text ++ '|' :: norm) ≠ [] := by simp
  have hfront : (((pid ++ '|' :: (text ++ '|' :: norm)) ++ ['\x0d']).dropWhile isWS) =
      (pid ++ '|' :: (text ++ '|' :: norm)) ++ ['\x0d'] :=
    dropWhile_ws_eq_self _ (takeWhile_ws_append_ne _ _ hu hune)
  rw [stripChars, hfront]
  have hrev : (((pid ++ '|' :: (text ++ '|' :: norm)) ++ ['\x0d'])).reverse =
      '\x0d' :: (pid ++ '|' :: (text ++ '|' :: norm)).reverse := by
    simp
  rw [hrev, List.dropWhile_cons, if_pos (by decide : isWS '\x0d' = true)]
  have hurev : (pid ++ '|' :: (text ++ '|' :: norm)).reverse =
      norm.reverse ++ '|' :: (text.reverse ++ '|' :: pid.reverse) := by
    simp [List.append_assoc]
  rw [hurev, dropWhile_ws_eq_self _ (takeWhile_ws_append _ _ hnorm), ← hurev,
    List.reverse_reverse]

/-- Parsing a serialized safe row (with its carriage return still attached)
recovers exactly the original record. -/
theorem parseLine_writeRow (r : Record) (h : safeRecord r = true) :
    parseLine ((r.pid ++ '|' :: (r.text ++ '|' :: r.norm)) ++ ['\x0d']) = some r := by
  obtain ⟨hqp, hqt, hqn, hwp, hwn⟩ := (safeRecord_iff r).1 h
  have hstrip := strip_core_cr r.pid r.text r.norm hwp hwn
  rw [parseLine]
  simp only [hstrip]
  rw [split2_three r.pid r.text r.norm (not_mem_of_needsQuote_false _ hqp).1
    (not_mem_of_needsQuote_false _ hqt).1]
  simp

/-- The newline terminator does not occur inside a safe row. -/
theorem nl_not_mem_row (r : Record) (h : safeRecord r = true) :
    '\n' ∉ (r.pid ++ '|' :: (r.text ++ '|' :: r.norm)) ++ ['\x0d'] := by
  obtain ⟨hqp, hqt, hqn, -, -⟩ := (safeRecord_iff r).1 h
  intro hm
  simp only [List.mem_append, List.mem_cons, List.mem_singleton] at hm
  rcases hm with (hp | (hc | (ht | (hc2 | hn)))) | (hr | hr0)
  · exact (not_mem_of_needsQuote_false _ hqp).2.2.2 hp
  · cases hc
  · exact (not_mem_of_needsQuote_false _ hqt).2.2.2 ht
  · cases hc2
  · exact (not_mem_of_needsQuote_false _ hqn).2.2.2 hn
  · exact absurd hr (by decide)
  · cases hr0

/-- A safe row serializes as its three fields joined by pipes plus the csv
line terminator. -/
theorem writeRow_safe (r : Record) (h : safeRecord r = true) :
    writeRow r = ((r.pid ++ '|' :: (r.text ++ '|' :: r.norm)) ++ ['\x0d']) ++ ['\n'] := by
  obtain ⟨hqp, hqt, hqn, -, -⟩ := (safeRecord_iff r).1 h
  rw [writeRow, csvField_safe _ hqp, csvField_safe _ hqt, csvField_safe _ hqn]
  simp

/-- `splitOnNl` splits off the first line at the first newline. -/
theorem splitOnNl_append (a rest : List Char) (h : '\n' ∉ a) :
    splitOnNl (a ++ '\n' :: rest) = a :: splitOnNl rest := by
  induction a with
  | nil => simp [splitOnNl]
  | cons c cs ih =>
    have hc : c ≠ '\n' := fun hcc => h (hcc ▸ List.mem_cons_self c cs)
    have hcs : '\n' ∉ cs := fun hm => h (List.mem_cons_of_mem c hm)
    rw [List.cons_append, splitOnNl]
    simp [hc, ih hcs]

/-- Round trip: splitting the written metadata file back into lines and
parsing it with the reader recovers exactly the serialized records, in
order, when every record is delimiter-safe. -/
theorem read_write_roundtrip (rs : List Record) (h : ∀ r ∈ rs, safeRecord r = true) :
    read_metadata (splitOnNl (writeMetadata rs)) = rs := by
  induction rs with
  | nil => rfl
  | cons r rest ih =>
    have hr := h r (List.mem_cons_self r rest)
    have hrest : ∀ x ∈ rest, safeRecord x = true := fun x hx => h x (List.mem_cons_of_mem r hx)
    have hw : writeMetadata (r :: rest) =
        ((r.pid ++ '|' :: (r.text ++ '|' :: r.norm)) ++ ['\x0d']) ++
          '\n' :: writeMetadata rest := by
      have : writeMetadata (r :: rest) = writeRow r ++ writeMetadata rest := by
        simp [writeMetadata]
      rw [this, writeRow_safe r hr]
      simp
    rw [hw, splitOnNl_append _ _ (nl_not_mem_row r hr)]
    simp only [read_metadata, List.filterMap_cons, parseLine_writeRow r hr]
    simp only [read_metadata] at ih
    rw [ih hrest]

/-- C3: the output metadata content is exactly the selected records — one
row per record, serialized in the input's pipe-delimited three-field format
with delimiter-safe fields unmodified (re-parsing the output with the
program's own reader recovers the selected records exactly) — listed in
ascending original-index order. -/
theorem output_metadata_exact (g0 : RngState) (env : Env) (count : Int) (seed : Nat)
    (f : Bool) (r : RunResult)
    (h : (main g0 env count seed f).2 = Except.ok r)
    (hsafe : ∀ x ∈ r.selected, safeRecord x = true) :
    read_metadata (splitOnNl r.metaOut) = r.selected ∧
      r.metaOut = writeMetadata r.selected ∧
      List.Sorted (· < ·) r.indices ∧
      r.selected = selectedRows (read_metadata env.metaLines) r.indices ∧
      (∀ i ∈ r.indices, i < (read_metadata env.metaLines).length) := by
  obtain ⟨hm, hw, hne, hmin, hr⟩ := (main_ok_iff g0 env count seed f r).1 h
  have hk : (min count (((read_metadata env.metaLines).length : Int))).toNat ≤
      (read_metadata env.metaLines).length :=
    Int.toNat_le.2 (min_le_right _ _)
  subst hr
  refine ⟨?_, runOk_metaOut env count seed f, ?_, runOk_selected env count seed f, ?_⟩
  · rw [runOk_metaOut]
    exact read_write_roundtrip _ hsafe
  · rw [runOk_indices]
    exact selectIndices_sorted_lt _ _ _ hk
  · rw [runOk_indices]
    exact selectIndices_mem _ _ _ hk

/-- One materializer step never removes files created earlier in the run. -/
theorem materializeOne_created_subset (flag : Bool)
    (srcOk linkOk copyOk dst0 : List Char → Bool)
    (created : List (List Char)) (pid : List Char) :
    created ⊆ (materializeOne flag srcOk linkOk copyOk dst0 created pid).1 := by
  rw [materializeOne]
  split_ifs <;> first
    | exact List.Subset.refl _
    | exact List.subset_cons_self _ _

/-- The materializer loop never removes files created earlier in the run. -/
theorem materializeAll_created_subset (flag : Bool)
    (srcOk linkOk copyOk dst0 : List Char → Bool)
    (pids created : List (List Char)) :
    created ⊆ (materializeAll flag srcOk linkOk copyOk dst0 created pids).1 := by
  induction pids generalizing created with
  | nil => exact List.Subset.refl _
  | cons p rest ih =>
    simp only [materializeAll]
    exact (materializeOne_created_subset flag srcOk linkOk copyOk dst0 created p).trans (ih _)

/-- Each materializer step either reports a warning or an error, or leaves
the destination holding the record's asset (pre-existing or just created). -/
theorem materializeOne_cases (flag : Bool) (srcOk linkOk copyOk dst0 : List Char → Bool)
    (created : List (List Char)) (pid : List Char) :
    (materializeOne flag srcOk linkOk copyOk dst0 created pid).2.1 = Outcome.warnMissing ∨
      (materializeOne flag srcOk linkOk copyOk dst0 created pid).2.1 = Outcome.errorFailed ∨
      dst0 pid = true ∨ pid ∈ (materializeOne flag srcOk linkOk copyOk dst0 created pid).1 := by
  rw [materializeOne]
  split_ifs with h1 h2 h3 h4 h5 h6
  · exact Or.inl rfl
  · have h2' : dst0 pid = true ∨ pid ∈ created := by simpa using h2
    rcases h2' with hd | hcont
    · exact Or.inr (Or.inr (Or.inl hd))
    · exact Or.inr (Or.inr (Or.inr hcont))
  · exact Or.inr (Or.inr (Or.inr (List.mem_cons_self _ _)))
  · exact Or.inr (Or.inl rfl)
  · exact Or.inr (Or.inr (Or.inr (List.mem_cons_self _ _)))
  · exact Or.inr (Or.inr (Or.inr (List.mem_cons_self _ _)))
  · exact Or.inr (Or.inl rfl)

/-- Coverage: every id fed to the materializer loop ends with its asset in
the destination (pre-existing or created) or with a reported warning or
error in the per-record results. -/
theorem materializeAll_covers (flag : Bool) (srcOk linkOk copyOk dst0 : List Char → Bool)
    (pids created : List (List Char)) :
    ∀ pid ∈ pids,
      dst0 pid = true ∨
        pid ∈ (materializeAll flag srcOk linkOk copyOk dst0 created pids).1 ∨
        (∃ a, (pid, Outcome.warnMissing, a) ∈
          (materializeAll flag srcOk linkOk copyOk dst0 created pids).2.1) ∨
        (∃ a, (pid, Outcome.errorFailed, a) ∈
          (materializeAll flag srcOk linkOk copyOk dst0 created pids).2.1) := by
  induction pids generalizing created with
  | nil => intro pid hp; cases hp
  | cons p rest ih =>
    intro pid hp
    rcases List.mem_cons.1 hp with rfl | hp'
    · rcases materializeOne_cases flag srcOk linkOk copyOk dst0 created pid with
        hwarn | herr | hdst | hmem
      · refine Or.inr (Or.inr (Or.inl
          ⟨(materializeOne flag srcOk linkOk copyOk dst0 created pid).2.2, ?_⟩))
        simp only [materializeAll]
        rw [hwarn]
        exact List.mem_cons_self _ _
      · refine Or.inr (Or.inr (Or.inr
          ⟨(materializeOne flag srcOk linkOk copyOk dst0 created pid).2.2, ?_⟩))
        simp only [materializeAll]
        rw [herr]
        exact List.mem_cons_self _ _
      · exact Or.inl hdst
      · refine Or.inr (Or.inl ?_)
        simp only [materializeAll]
        exact materializeAll_created_subset flag srcOk linkOk copyOk dst0 rest _ hmem
    · rcases ih (materializeOne flag srcOk linkOk copyOk dst0 created p).1 pid hp' with
        h | h | ⟨a, ha⟩ | ⟨a, ha⟩
      · exact Or.inl h
      · refine Or.inr (Or.inl ?_)
        simp only [materializeAll]
        exact h
      · refine Or.inr (Or.inr (Or.inl ⟨a, ?_⟩))
        simp only [materializeAll]
        exact List.mem_cons_of_mem _ ha
      · refine Or.inr (Or.inr (Or.inr ⟨a, ?_⟩))
        simp only [materializeAll]
        exact List.mem_cons_of_mem _ ha

/-- C4: after a completed run, every selected record — hence every id
listed in the output metadata file — either has its asset present in the
destination (pre-existing or created by this run), or had a missing-source
warning or an unrecoverable-transfer error reported for it. -/
theorem no_silent_loss (g0 : RngState) (env : Env) (count : Int) (seed : Nat) (f : Bool)
    (r : RunResult) (h : (main g0 env count seed f).2 = Except.ok r) :
    ∀ p ∈ r.selected,
      env.dstWavExists0 p.pid = true ∨ p.pid ∈ r.created ∨
        (∃ a, (p.pid, Outcome.warnMissing, a) ∈ r.results) ∨
        (∃ a, (p.pid, Outcome.errorFailed, a) ∈ r.results) := by
  obtain ⟨-, -, -, -, hr⟩ := (main_ok_iff g0 env count seed f r).1 h
  subst hr
  intro p hp
  have hmat := runOk_mat env count seed f
  have hcre : (runOk env count seed f).created =
      (materializeAll f env.srcWavExists env.linkOk env.copyOk env.dstWavExists0 []
        (((runOk env count seed f).selected).map Record.pid)).1 :=
    congrArg Prod.fst hmat
  have hres : (runOk env count seed f).results =
      (materializeAll f env.srcWavExists env.linkOk env.copyOk env.dstWavExists0 []
        (((runOk env count seed f).selected).map Record.pid)).2.1 :=
    congrArg (fun q => q.2.1) hmat
  rcases materializeAll_covers f env.srcWavExists env.linkOk env.copyOk env.dstWavExists0
      (((runOk env count seed f).selected).map Record.pid) [] p.pid
      (List.mem_map_of_mem Record.pid hp) with h1 | h1 | ⟨a, ha⟩ | ⟨a, ha⟩
  · exact Or.inl h1
  · exact Or.inr (Or.inl (by rw [hcre]; exact h1))
  · exact Or.inr (Or.inr (Or.inl ⟨a, by rw [hres]; exact ha⟩))
  · exact Or.inr (Or.inr (Or.inr ⟨a, by rw [hres]; exact ha⟩))

/-- The transfer attempts of one materializer step follow the
single-fallback state machine: no attempt, one successful attempt, or a
failed first attempt followed by exactly one copy attempt; and under the
copy flag no attempt is ever a hardlink. -/
theorem materializeOne_attempts_shape (flag : Bool)
    (srcOk linkOk copyOk dst0 : List Char → Bool)
    (created : List (List Char)) (pid : List Char) :
    ((materializeOne flag srcOk linkOk copyOk dst0 created pid).2.2 = [] ∨
      (∃ t, (materializeOne flag srcOk linkOk copyOk dst0 created pid).2.2 = [t] ∧
        t.ok = true) ∨
      (∃ t t', (materializeOne flag srcOk linkOk copyOk dst0 created pid).2.2 = [t, t'] ∧
        t.ok = false ∧ t'.kind = AttemptKind.copy)) ∧
    (flag = true →
      ∀ t ∈ (materializeOne flag srcOk linkOk copyOk dst0 created pid).2.2,
        t.kind = AttemptKind.copy) := by
  rw [materializeOne]
  split_ifs with h1 h2 h3 h4 h5 h6
  · exact ⟨Or.inl rfl, fun _ t ht => absurd ht (List.not_mem_nil t)⟩
  · exact ⟨Or.inl rfl, fun _ t ht => absurd ht (List.not_mem_nil t)⟩
  · refine ⟨Or.inr (Or.inl ⟨_, rfl, rfl⟩), fun _ t ht => ?_⟩
    rw [List.mem_singleton.1 ht]
  · refine ⟨Or.inr (Or.inr ⟨_, _, rfl, rfl, rfl⟩), fun _ t ht => ?_⟩
    rcases List.mem_cons.1 ht with rfl | ht'
    · rfl
    · rw [List.mem_singleton.1 ht']
  · exact ⟨Or.inr (Or.inl ⟨_, rfl, rfl⟩), fun hf => absurd hf h3⟩
  · exact ⟨Or.inr (Or.inr ⟨_, _, rfl, rfl, rfl⟩), fun hf => absurd hf h3⟩
  · exact ⟨Or.inr (Or.inr ⟨_, _, rfl, rfl, rfl⟩), fun hf => absurd hf h3⟩

/-- Lifting of the attempt-shape invariant to every per-record result of
the materializer loop. -/
theorem materializeAll_attempts_shape (flag : Bool)
    (srcOk linkOk copyOk dst0 : List Char → Bool)
    (pids created : List (List Char)) :
    ∀ x ∈ (materializeAll flag srcOk linkOk copyOk dst0 created pids).2.1,
      (x.2.2 = [] ∨ (∃ t, x.2.2 = [t] ∧ t.ok = true) ∨
        (∃ t t', x.2.2 = [t, t'] ∧ t.ok = false ∧ t'.kind = AttemptKind.copy)) ∧
      (flag = true → ∀ t ∈ x.2.2, t.kind = AttemptKind.copy) := by
  induction pids generalizing created with
  | nil => intro x hx; cases hx
  | cons p rest ih =>
    intro x hx
    simp only [materializeAll] at hx
    rcases List.mem_cons.1 hx with rfl | hx'
    · exact materializeOne_attempts_shape flag srcOk linkOk copyOk dst0 created p
    · exact ih _ x hx'

/-- C7: per selected record, the copy flag suppresses the hardlink attempt
entirely, at most two transfer attempts are ever made, and a second attempt
happens only after a failed first one and is always the copy fallback. -/
theorem copy_flag_and_single_fallback (g0 : RngState) (env : Env) (count : Int)
    (seed : Nat) (f : Bool) (r : RunResult)
    (h : (main g0 env count seed f).2 = Except.ok r) :
    ∀ x ∈ r.results,
      (f = true → ∀ t ∈ x.2.2, t.kind = AttemptKind.copy) ∧
      x.2.2.length ≤ 2 ∧
      (∀ t t', x.2.2 = [t, t'] → t.ok = false ∧ t'.kind = AttemptKind.copy) := by
  obtain ⟨-, -, -, -, hr⟩ := (main_ok_iff g0 env count seed f r).1 h
  subst hr
  intro x hx
  have hres : (runOk env count seed f).results =
      (materializeAll f env.srcWavExists env.linkOk env.copyOk env.dstWavExists0 []
        (((runOk env count seed f).selected).map Record.pid)).2.1 :=
    congrArg (fun q => q.2.1) (runOk_mat env count seed f)
  rw [hres] at hx
  obtain ⟨hshape, hflag⟩ := materializeAll_attempts_shape f env.srcWavExists env.linkOk
    env.copyOk env.dstWavExists0 (((runOk env count seed f).selected).map Record.pid) [] x hx
  refine ⟨hflag, ?_, ?_⟩
  · rcases hshape with h0 | ⟨t, h1, -⟩ | ⟨t, t', h2, -, -⟩
    · rw [h0]
      simp
    · rw [h1]
      simp
    · rw [h2]
      simp
  · intro t t' heq
    rcases hshape with h0 | ⟨u, h1, -⟩ | ⟨u, u', h2, hu, hu'⟩
    · rw [h0] at heq
      cases heq
    · rw [h1] at heq
      cases heq
    · rw [h2] at heq
      simp only [List.cons.injEq, and_true] at heq
      obtain ⟨rfl, rfl⟩ := heq
      exact ⟨hu, hu'⟩

/-- A materializer step for a record whose destination asset pre-exists
makes no transfer attempt, creates nothing, never reports a transfer error,
and — when the source asset is present — skips the record as already
satisfied. -/
theorem materializeOne_dst0 (flag : Bool) (srcOk linkOk copyOk dst0 : List Char → Bool)
    (created : List (List Char)) (pid : List Char) (hd : dst0 pid = true) :
    (materializeOne flag srcOk linkOk copyOk dst0 created pid).1 = created ∧
      (materializeOne flag srcOk linkOk copyOk dst0 created pid).2.2 = [] ∧
      (materializeOne flag srcOk linkOk copyOk dst0 created pid).2.1 ≠ Outcome.errorFailed ∧
      (srcOk pid = true →
        (materializeOne flag srcOk linkOk copyOk dst0 created pid).2.1 =
          Outcome.skippedExisting) := by
  rw [materializeOne]
  by_cases h1 : srcOk pid = false
  · rw [if_pos h1]
    refine ⟨rfl, rfl, ?_, fun hs => ?_⟩
    · intro hc
      cases hc
    · rw [h1] at hs
      cases hs
  · rw [if_neg h1, if_pos (by simp [hd])]
    refine ⟨rfl, rfl, ?_, fun _ => rfl⟩
    intro hc
    cases hc

/-- Lifting of `materializeOne_dst0` to every per-record result of the
loop. -/
theorem materializeAll_dst0 (flag : Bool) (srcOk linkOk copyOk dst0 : List Char → Bool)
    (pids created : List (List Char)) :
    ∀ x ∈ (materializeAll flag srcOk linkOk copyOk dst0 created pids).2.1,
      dst0 x.1 = true →
        x.2.2 = [] ∧ x.2.1 ≠ Outcome.errorFailed ∧
          (srcOk x.1 = true → x.2.1 = Outcome.skippedExisting) := by
  induction pids generalizing created with
  | nil => intro x hx; cases hx
  | cons p rest ih =>
    intro x hx hd
    simp only [materializeAll] at hx
    rcases List.mem_cons.1 hx with rfl | hx'
    · obtain ⟨-, h2, h3, h4⟩ := materializeOne_dst0 flag srcOk linkOk copyOk dst0 created p hd
      exact ⟨h2, h3, h4⟩
    · exact ih _ x hx' hd

/-- When every id fed to the loop has its destination asset present and its
source asset present, the loop creates nothing, reports no failures, and
skips every record. -/
theorem materializeAll_all_skipped (flag : Bool)
    (srcOk linkOk copyOk dst0 : List Char → Bool) (pids created : List (List Char))
    (h : ∀ pid ∈ pids, dst0 pid = true ∧ srcOk pid = true) :
    materializeAll flag srcOk linkOk copyOk dst0 created pids =
      (created, pids.map (fun pid => (pid, Outcome.skippedExisting, ([] : List Attempt))),
        0) := by
  induction pids generalizing created with
  | nil => rfl
  | cons p rest ih =>
    obtain ⟨hd, hs⟩ := h p (List.mem_cons_self p rest)
    have hstep : materializeOne flag srcOk linkOk copyOk dst0 created p =
        (created, Outcome.skippedExisting, []) := by
      rw [materializeOne, if_neg (by simp [hs]), if_pos (by simp [hd])]
    simp only [materializeAll, hstep]
    rw [ih _ (fun pid hp => h pid (List.mem_cons_of_mem p hp))]
    simp [errInc]

/-- C8 (amended): a selected record whose destination asset pre-exists is
never the subject of a transfer attempt and never yields a transfer error;
if its source asset is also still present it is skipped as already
satisfied.  Consequently, re-running against a destination already holding
every selected asset (sources intact) transfers nothing, creates nothing
and reports zero failures — idempotent materialization. -/
theorem existing_destination_skip (g0 : RngState) (env : Env) (count : Int) (seed : Nat)
    (f : Bool) (r : RunResult) (h : (main g0 env count seed f).2 = Except.ok r) :
    (∀ x ∈ r.results, env.dstWavExists0 x.1 = true →
        x.2.2 = [] ∧ x.2.1 ≠ Outcome.errorFailed ∧
          (env.srcWavExists x.1 = true → x.2.1 = Outcome.skippedExisting)) ∧
    ((∀ p ∈ r.selected, env.dstWavExists0 p.pid = true ∧ env.srcWavExists p.pid = true) →
      r.created = [] ∧ r.errors = 0 ∧
        r.results = (r.selected.map Record.pid).map
          (fun pid => (pid, Outcome.skippedExisting, ([] : List Attempt)))) := by
  obtain ⟨-, -, -, -, hr⟩ := (main_ok_iff g0 env count seed f r).1 h
  subst hr
  have hmat := runOk_mat env count seed f
  constructor
  · intro x hx hd
    have hres : (runOk env count seed f).results =
        (materializeAll f env.srcWavExists env.linkOk env.copyOk env.dstWavExists0 []
          (((runOk env count seed f).selected).map Record.pid)).2.1 :=
      congrArg (fun q => q.2.1) hmat
    rw [hres] at hx
    exact materializeAll_dst0 f env.srcWavExists env.linkOk env.copyOk env.dstWavExists0
      (((runOk env count seed f).selected).map Record.pid) [] x hx hd
  · intro hall
    have hall' : ∀ pid ∈ ((runOk env count seed f).selected).map Record.pid,
        env.dstWavExists0 pid = true ∧ env.srcWavExists pid = true := by
      intro pid hp
      obtain ⟨p, hpmem, rfl⟩ := List.mem_map.1 hp
      exact hall p hpmem
    have hskip := materializeAll_all_skipped f env.srcWavExists env.linkOk env.copyOk
      env.dstWavExists0 (((runOk env count seed f).selected).map Record.pid) [] hall'
    rw [hskip] at hmat
    exact ⟨congrArg Prod.fst hmat, congrArg (fun q => q.2.2) hmat,
      congrArg (fun q => q.2.1) hmat⟩

/-- C6 (amended): when the parsed input records have pairwise-distinct ids,
every record of the output dataset has a unique id — the selection picks
distinct indices, so duplicates can only come from the input. -/
theorem output_ids_unique (g0 : RngState) (env : Env) (count : Int) (seed : Nat)
    (f : Bool) (r : RunResult) (h : (main g0 env count seed f).2 = Except.ok r)
    (hnd : ((read_metadata env.metaLines).map Record.pid).Nodup) :
    (r.selected.map Record.pid).Nodup := by
  obtain ⟨-, -, -, -, hr⟩ := (main_ok_iff g0 env count seed f r).1 h
  subst hr
  have hk : (min count (((read_metadata env.metaLines).length : Int))).toNat ≤
      (read_metadata env.metaLines).length :=
    Int.toNat_le.2 (min_le_right _ _)
  have hindnd := selectIndices_nodup seed (read_metadata env.metaLines).length _ hk
  have hmemb := selectIndices_mem seed (read_metadata env.metaLines).length _ hk
  rw [runOk_selected, runOk_indices, selectedRows, List.map_map]
  refine List.Nodup.map_on ?_ hindnd
  intro i hi j hj hfij
  have hi' := hmemb i hi
  have hj' := hmemb j hj
  have hmi : i < ((read_metadata env.metaLines).map Record.pid).length := by
    rw [List.length_map]
    exact hi'
  have hmj : j < ((read_metadata env.metaLines).map Record.pid).length := by
    rw [List.length_map]
    exact hj'
  have hfij' : ((read_metadata env.metaLines).getD i ⟨[], [], []⟩).pid =
      ((read_metadata env.metaLines).getD j ⟨[], [], []⟩).pid := hfij
  rw [List.getD_eq_getElem _ _ hi', List.getD_eq_getElem _ _ hj'] at hfij'
  have hget : ((read_metadata env.metaLines).map Record.pid).get ⟨i, hmi⟩ =
      ((read_metadata env.metaLines).map Record.pid).get ⟨j, hmj⟩ := by
    rw [List.get_eq_getElem, List.get_eq_getElem]
    rw [List.getElem_map, List.getElem_map]
    exact hfij'
  have := (List.Nodup.getElem_inj_iff hnd).1
    ((List.get_eq_getElem _ _).symm.trans (hget.trans (List.get_eq_getElem _ _)))
  exact this

/-- C6 (counterexample): with a source whose two records share the id `a`
and requested count 2, the run completes and the output dataset lists the
id `a` twice — the output ids are not unique for every input dataset. -/
theorem output_ids_unique_counterexample :
    (main ⟨0⟩ envDup 2 0 false).2 = Except.ok (runOk envDup 2 0 false) ∧
      ((runOk envDup 2 0 false).selected.map Record.pid) = [strL "a", strL "a"] ∧
      ¬ ((runOk envDup 2 0 false).selected.map Record.pid).Nodup :=
  ⟨rfl, by decide, by decide⟩

/-- C8 (counterexample): with the only record's destination asset already
present but its source wav missing, the run completes yet the record is not
skipped without error: it is reported as a missing-source warning and
counted in the failure tally, so a pre-existing destination alone does not
imply a clean skip. -/
theorem existing_destination_counterexample :
    (main ⟨0⟩ envC8 1 42 false).2 = Except.ok (runOk envC8 1 42 false) ∧
      envC8.dstWavExists0 (strL "a") = true ∧
      (runOk envC8 1 42 false).results = [(strL "a", Outcome.warnMissing, [])] ∧
      (runOk envC8 1 42 false).errors = 1 :=
  ⟨rfl, rfl, by decide, by decide⟩

/-- Witness for `effective_count_is_min`: a three-record source with
requested count 5 completes and selects all three records. -/
theorem effective_count_is_min_witness :
    envW.srcMetaExists = true ∧ envW.srcWavsExists = true ∧
      read_metadata envW.metaLines ≠ [] ∧ (0 : Int) ≤ 5 ∧
      (∃ r, (main ⟨0⟩ envW 5 42 false).2 = Except.ok r ∧
        (r.effCount : Int) = min 5 (r.total : Int) ∧
        r.indices.length = r.effCount ∧
        r.selected.length = r.effCount ∧
        r.reportedSelecting = r.effCount ∧
        r.reportedTotal = r.total ∧
        ((r.total : Int) ≤ 5 → r.effCount = r.total)) :=
  ⟨rfl, rfl, by decide, by decide,
    effective_count_is_min ⟨0⟩ envW 5 42 false rfl rfl (by decide) (by decide)⟩

/-- Witness for `selection_reproducible`: two runs from different ambient
PRNG states, with different link oracles and copy flags, agree on the
selection. -/
theorem selection_reproducible_witness :
    envW.metaLines = envW2.metaLines ∧
      ((runOk envW 2 42 false).indices = (runOk envW2 2 42 true).indices ∧
        (runOk envW 2 42 false).selected = (runOk envW2 2 42 true).selected ∧
        (runOk envW 2 42 false).selected.map Record.pid =
          (runOk envW2 2 42 true).selected.map Record.pid ∧
        List.Sorted (· ≤ ·) (runOk envW 2 42 false).indices) :=
  ⟨rfl, selection_reproducible ⟨0⟩ ⟨99⟩ envW envW2 2 42 false true
    (runOk envW 2 42 false) (runOk envW2 2 42 true) rfl rfl rfl⟩

/-- Witness for `output_metadata_exact` at a concrete safe dataset. -/
theorem output_metadata_exact_witness :
    (∀ x ∈ (runOk envW 2 42 false).selected, safeRecord x = true) ∧
      (read_metadata (splitOnNl (runOk envW 2 42 false).metaOut) =
          (runOk envW 2 42 false).selected ∧
        (runOk envW 2 42 false).metaOut = writeMetadata (runOk envW 2 42 false).selected ∧
        List.Sorted (· < ·) (runOk envW 2 42 false).indices ∧
        (runOk envW 2 42 false).selected =
          selectedRows (read_metadata envW.metaLines) (runOk envW 2 42 false).indices ∧
        (∀ i ∈ (runOk envW 2 42 false).indices,
          i < (read_metadata envW.metaLines).length)) :=
  ⟨by decide, output_metadata_exact ⟨0⟩ envW 2 42 false (runOk envW 2 42 false) rfl
    (by decide)⟩

/-- Witness for `no_silent_loss` at a concrete selected record. -/
theorem no_silent_loss_witness :
    (⟨strL "b", strL "u", strL "m"⟩ : Record) ∈ (runOk envW 2 42 false).selected ∧
      (envW.dstWavExists0 (strL "b") = true ∨ strL "b" ∈ (runOk envW 2 42 false).created ∨
        (∃ a, (strL "b", Outcome.warnMissing, a) ∈ (runOk envW 2 42 false).results) ∨
        (∃ a, (strL "b", Outcome.errorFailed, a) ∈ (runOk envW 2 42 false).results)) :=
  ⟨by decide, no_silent_loss ⟨0⟩ envW 2 42 false (runOk envW 2 42 false) rfl
    ⟨strL "b", strL "u", strL "m"⟩ (by decide)⟩

/-- Witness for `fatal_taxonomy`: on a valid source nothing is fatal and
the run completes. -/
theorem fatal_taxonomy_witness :
    ((0 : Int) ≤ 5 ∧
      ((∃ e, (main ⟨0⟩ envW 5 42 false).2 = Except.error e) ↔
        envW.srcMetaExists = false ∨ envW.srcWavsExists = false ∨
          read_metadata envW.metaLines = [])) ∧
      (envW.srcMetaExists = true ∧ envW.srcWavsExists = true ∧
        read_metadata envW.metaLines ≠ [] ∧
        ∃ r, (main ⟨0⟩ envW 5 42 false).2 = Except.ok r) :=
  ⟨⟨by decide, (fatal_taxonomy ⟨0⟩ envW 5 42 false).1 (by decide)⟩,
    rfl, rfl, by decide,
    (fatal_taxonomy ⟨0⟩ envW 5 42 false).2.2 rfl rfl (by decide) (by decide)⟩

/-- Witness for `output_ids_unique` at a concrete duplicate-free dataset. -/
theorem output_ids_unique_witness :
    ((read_metadata envW.metaLines).map Record.pid).Nodup ∧
      ((runOk envW 2 42 false).selected.map Record.pid).Nodup :=
  ⟨by decide, output_ids_unique ⟨0⟩ envW 2 42 false (runOk envW 2 42 false) rfl (by decide)⟩

/-- Witness for `copy_flag_and_single_fallback` at a concrete copy-mode
run and record result. -/
theorem copy_flag_and_single_fallback_witness :
    (strL "b", Outcome.copied, [(⟨AttemptKind.copy, strL "b", true⟩ : Attempt)]) ∈
        (runOk envW 2 42 true).results ∧
      ((true = true → ∀ t ∈ [(⟨AttemptKind.copy, strL "b", true⟩ : Attempt)],
          t.kind = AttemptKind.copy) ∧
        ([(⟨AttemptKind.copy, strL "b", true⟩ : Attempt)]).length ≤ 2 ∧
        (∀ t t', [(⟨AttemptKind.copy, strL "b", true⟩ : Attempt)] = [t, t'] →
          t.ok = false ∧ t'.kind = AttemptKind.copy)) :=
  ⟨by decide, copy_flag_and_single_fallback ⟨0⟩ envW 2 42 true (runOk envW 2 42 true) rfl
    (strL "b", Outcome.copied, [⟨AttemptKind.copy, strL "b", true⟩]) (by decide)⟩

/-- Witness for `existing_destination_skip`: re-running against a fully
populated destination with sources intact skips everything. -/
theorem existing_destination_skip_witness :
    (∀ p ∈ (runOk envPre 3 42 false).selected,
        envPre.dstWavExists0 p.pid = true ∧ envPre.srcWavExists p.pid = true) ∧
      ((runOk envPre 3 42 false).created = [] ∧ (runOk envPre 3 42 false).errors = 0 ∧
        (runOk envPre 3 42 false).results =
          ((runOk envPre 3 42 false).selected.map Record.pid).map
            (fun pid => (pid, Outcome.skippedExisting, ([] : List Attempt)))) :=
  ⟨by decide,
    (existing_destination_skip ⟨0⟩ envPre 3 42 false (runOk envPre 3 42 false) rfl).2
      (by decide)⟩

/-- Witness for `reader_line_policy` at concrete lines of each of the four
kinds. -/
theorem reader_line_policy_witness :
    (stripChars (strL "   ") = [] ∧ parseLine (strL "   ") = none) ∧
      parseLine (strL "a" ++ '|' :: strL "t") = some ⟨strL "a", strL "t", strL "t"⟩ ∧
      parseLine (strL "abc") = none ∧
      parseLine (strL "a" ++ '|' :: (strL "t" ++ '|' :: strL "n|x")) =
        some ⟨strL "a", strL "t", strL "n|x"⟩ :=
  ⟨⟨by decide, reader_line_policy.1 (strL "   ") (by decide)⟩,
    reader_line_policy.2.1 (strL "a") (strL "t") (by decide) (by decide) (by decide),
    reader_line_policy.2.2.1 (strL "abc") (by decide) (by decide) (by decide),
    reader_line_policy.2.2.2 (strL "a") (strL "t") (strL "n|x") (by decide) (by decide)
      (by decide)⟩

/-- Witness for `out_of_precondition_counts`: count 0 completes emptily and
count -3 dies with the `ValueError` on the concrete environment. -/
theorem out_of_precondition_counts_witness :
    (envW.srcMetaExists = true ∧ envW.srcWavsExists = true ∧
      read_metadata envW.metaLines ≠ []) ∧
      (∃ r, (main ⟨0⟩ envW 0 42 false).2 = Except.ok r ∧ r.effCount = 0 ∧ r.indices = [] ∧
        r.selected = [] ∧ r.metaOut = [] ∧ r.created = [] ∧ r.results = [] ∧
        r.errors = 0 ∧
        (main ⟨0⟩ envW 0 42 false).1 = [Eff.mkdirWavs, Eff.writeMeta []]) ∧
      ((-3 : Int) < 0 ∧
        main ⟨0⟩ envW (-3) 42 false = ([], Except.error FatalErr.sampleValueError)) :=
  ⟨⟨rfl, rfl, by decide⟩,
    (out_of_precondition_counts ⟨0⟩ envW 42 false rfl rfl (by decide)).1,
    by decide,
    (out_of_precondition_counts ⟨0⟩ envW 42 false rfl rfl (by decide)).2 (-3) (by decide)⟩

end Subsample
